import Mathlib

/-!
# Verification of `fdbserver/DataDistributionTeam.h`

A shallow embedding of the team-selection data model of FoundationDB's data
distribution subsystem, together with proofs about the `GetTeamRequest`
comparison rule (`lessCompare`, `lessCompareByLoad`, `greaterReadLoad`,
`lessReadLoad`), the request constructors, and the spec-level Team entity
(in-flight counters, membership, reply slot, WANT_TRUE_BEST scan).

Machine integers (`int64_t`) are modelled as `ℤ` (the embedded code only
compares them, so no overflow is observable), and `double` values
(read bandwidths, penalties) as `ℚ`.
-/

/-- A storage-server identifier. In the source `UID` is a pair of 64-bit
words; only its identity matters here. -/
structure UID where
  first : Nat
  second : Nat
deriving DecidableEq, Repr

/-- An opaque key range; `GetTeamRequest.keys` carries one but no embedded
operation inspects it. -/
structure KeyRange where
deriving DecidableEq, Repr

/-- `TeamSelect::Value` from the source: `ANY`, `WANT_COMPLETE_SRCS`,
`WANT_TRUE_BEST`. -/
inductive TeamSelect where
  | ANY
  | WANT_COMPLETE_SRCS
  | WANT_TRUE_BEST
deriving DecidableEq, Repr

/-- The observable behaviour of a `Reference<IDataDistributionTeam>` that the
comparator consumes: `lessCompare` reads a team only through
`getLoadReadBandwidth(true)` and `getLoadReadBandwidth(false)` (both calls at
the default `inflightPenalty = 1.0`), so a team reference is modelled by those
two values. -/
structure TeamRef where
  loadReadBandwidthIncl : ℚ
  loadReadBandwidthExcl : ℚ
deriving DecidableEq, Repr

/-- `IDataDistributionTeam::getLoadReadBandwidth(includeInFlight)` as observed
through a `TeamRef` (the `inflightPenalty` argument is left at its default
`1.0` at both call sites in the header). -/
def TeamRef.getLoadReadBandwidth (t : TeamRef) (includeInFlight : Bool) : ℚ :=
  if includeInFlight then t.loadReadBandwidthIncl else t.loadReadBandwidthExcl

/-- `GetTeamRequest` fields, in source order. The `Promise` reply slot is
modelled separately (`ReplySlot`) because it is owned by the flow runtime. -/
structure GetTeamRequest where
  teamSelect : TeamSelect
  preferLowerDiskUtil : Bool
  teamMustHaveShards : Bool
  forReadBalance : Bool
  preferLowerReadUtil : Bool
  inflightPenalty : ℚ
  findTeamByServers : Bool
  keys : Option KeyRange
  completeSources : List UID
  src : List UID
deriving DecidableEq, Repr

/-- The criteria constructor
`GetTeamRequest(TeamSelect, PreferLowerDiskUtil, TeamMustHaveShards, ForReadBalance, PreferLowerReadUtil, double, Optional<KeyRange>)`:
`findTeamByServers` is forced to `false`, the server lists default to empty. -/
def GetTeamRequest.make (teamSelectRequest : TeamSelect)
    (preferLowerDiskUtil teamMustHaveShards forReadBalance preferLowerReadUtil : Bool)
    (inflightPenalty : ℚ) (keys : Option KeyRange) : GetTeamRequest :=
  { teamSelect := teamSelectRequest
    preferLowerDiskUtil := preferLowerDiskUtil
    teamMustHaveShards := teamMustHaveShards
    forReadBalance := forReadBalance
    preferLowerReadUtil := preferLowerReadUtil
    inflightPenalty := inflightPenalty
    findTeamByServers := false
    keys := keys
    completeSources := []
    src := [] }

/-- The server-list constructor `GetTeamRequest(std::vector<UID> servers)`:
`teamSelect = WANT_COMPLETE_SRCS`, `findTeamByServers = true`, the servers
move into `src`; every other field keeps its default. -/
def GetTeamRequest.fromServers (servers : List UID) : GetTeamRequest :=
  { teamSelect := TeamSelect.WANT_COMPLETE_SRCS
    preferLowerDiskUtil := false
    teamMustHaveShards := false
    forReadBalance := false
    preferLowerReadUtil := false
    inflightPenalty := 1
    findTeamByServers := true
    keys := none
    completeSources := []
    src := servers }

/-- `GetTeamRequest::greaterReadLoad`: `-1` if `a`'s read load (with in-flight
reads included) is greater than `b`'s, `1` if smaller, `0` on an exact tie. -/
def greaterReadLoad (a b : TeamRef) : Int :=
  let r1 := a.getLoadReadBandwidth true
  let r2 := b.getLoadReadBandwidth true
  if r1 = r2 then 0 else if r1 > r2 then -1 else 1

/-- `GetTeamRequest::lessReadLoad`: `-1` if `a`'s read load (excluding
in-flight reads) is smaller than `b`'s, `1` if greater, `0` on an exact tie. -/
def lessReadLoad (a b : TeamRef) : Int :=
  let r1 := a.getLoadReadBandwidth false
  let r2 := b.getLoadReadBandwidth false
  if r1 = r2 then 0 else if r1 < r2 then -1 else 1

/-- `GetTeamRequest::lessCompareByLoad`: `lessLoad := aLoadBytes <= bLoadBytes`;
returns `!lessLoad` when `preferLowerDiskUtil` is set, `lessLoad` otherwise. -/
def GetTeamRequest.lessCompareByLoad (req : GetTeamRequest)
    (aLoadBytes bLoadBytes : ℤ) : Bool :=
  let lessLoad : Bool := decide (aLoadBytes ≤ bLoadBytes)
  if req.preferLowerDiskUtil then !lessLoad else lessLoad

/-- `GetTeamRequest::lessCompare`: true if `a.score < b.score`. When
`forReadBalance` is set the read-load comparison runs first
(`greaterReadLoad` when `preferLowerReadUtil`, else `lessReadLoad`); a zero
result falls through to `lessCompareByLoad`. -/
def GetTeamRequest.lessCompare (req : GetTeamRequest) (a b : TeamRef)
    (aLoadBytes bLoadBytes : ℤ) : Bool :=
  let res : Int :=
    if req.forReadBalance then
      if req.preferLowerReadUtil then greaterReadLoad a b else lessReadLoad a b
    else 0
  if res = 0 then req.lessCompareByLoad aLoadBytes bLoadBytes else decide (res < 0)

/-- Modelled from the spec: the Team entity of §3 (its concrete class is not
in `src/`, only the `IDataDistributionTeam` interface is). Identity is an
ordered, deduplicated list of server IDs; mutable runtime state is the health
flag, priority, the two in-flight counters and the wrong-configuration flag;
`readBandwidthSum` is the aggregated member read bandwidth that
`getLoadReadBandwidth` reports before the in-flight adjustment. -/
structure Team where
  serverIDs : List UID
  healthy : Bool
  priority : ℤ
  dataInFlight : ℤ
  readInFlight : ℤ
  wrongConfiguration : Bool
  readBandwidthSum : ℚ
deriving DecidableEq, Repr

/-- `IDataDistributionTeam::size()` of the spec-modelled Team. -/
def Team.size (t : Team) : ℕ :=
  t.serverIDs.length

/-- `IDataDistributionTeam::getServerIDs()` of the spec-modelled Team. -/
def Team.getServerIDs (t : Team) : List UID :=
  t.serverIDs

/-- Modelled from the spec: `getLoadReadBandwidth(includeInFlight, inflightPenalty)`
(§3, §4.1) — the aggregated member read bandwidth, plus
`readInFlight * inflightPenalty` when `includeInFlight` is set. The concrete
override is not in `src/`. -/
def Team.getLoadReadBandwidth (t : Team) (includeInFlight : Bool)
    (inflightPenalty : ℚ) : ℚ :=
  t.readBandwidthSum +
    (if includeInFlight then (t.readInFlight : ℚ) * inflightPenalty else 0)

/-- The `TeamRef` observables of a spec-modelled Team, at the header's default
`inflightPenalty = 1.0`. -/
def Team.toTeamRef (t : Team) : TeamRef :=
  ⟨t.getLoadReadBandwidth true 1, t.getLoadReadBandwidth false 1⟩

/-- Modelled from the spec: the mutating calls of §4.1 that a Team accepts
during its lifetime (`addDataInFlightToTeam`, `addReadInFlightToTeam`,
`setHealthy`, `setPriority`, `setWrongConfiguration`, `addServers`); their
bodies are not in `src/`. -/
inductive TeamOp where
  | addDataInFlightToTeam (delta : ℤ)
  | addReadInFlightToTeam (delta : ℤ)
  | setHealthy (b : Bool)
  | setPriority (p : ℤ)
  | setWrongConfiguration (b : Bool)
  | addServers (servers : List UID)
deriving DecidableEq, Repr

/-- Modelled from the spec: one Team mutation. Per §3/§7(d) the in-flight
counters are clamped at zero on decrement ("decrements are clamped, never
driven negative"); `addServers` appends the not-yet-present servers, keeping
the ID list deduplicated. -/
def applyTeamOp (t : Team) : TeamOp → Team
  | .addDataInFlightToTeam delta =>
      { t with dataInFlight := max 0 (t.dataInFlight + delta) }
  | .addReadInFlightToTeam delta =>
      { t with readInFlight := max 0 (t.readInFlight + delta) }
  | .setHealthy b => { t with healthy := b }
  | .setPriority p => { t with priority := p }
  | .setWrongConfiguration b => { t with wrongConfiguration := b }
  | .addServers servers =>
      { t with serverIDs :=
          t.serverIDs ++ servers.filter (fun s => decide (s ∉ t.serverIDs)) }

/-- A whole call sequence applied to a Team. -/
def applyTeamOps (t : Team) (ops : List TeamOp) : Team :=
  ops.foldl applyTeamOp t

/-- The deltas of the `addDataInFlightToTeam` calls of a sequence, in order. -/
def dataDeltas (ops : List TeamOp) : List ℤ :=
  ops.filterMap fun op =>
    match op with
    | .addDataInFlightToTeam delta => some delta
    | _ => none

/-- The deltas of the `addReadInFlightToTeam` calls of a sequence, in order. -/
def readDeltas (ops : List TeamOp) : List ℤ :=
  ops.filterMap fun op =>
    match op with
    | .addReadInFlightToTeam delta => some delta
    | _ => none

/-- One clamped counter run over a plain delta list (the §3 clamping of a
single in-flight counter, isolated from the rest of the Team state). -/
def applyClamped (c : ℤ) (deltas : List ℤ) : ℤ :=
  deltas.foldl (fun acc delta => max 0 (acc + delta)) c

/-- `PairSeq pending l`: the delta list `l` is a valid interleaving of matched
`+d` / `-d` call pairs, continuing from a multiset `pending` of already-opened
(positive-side issued, compensation still outstanding) deltas; every pair is
closed by the end. An interleaving of complete `+d`-then-`-d` pairs is exactly
a `PairSeq 0` list. -/
inductive PairSeq : Multiset ℤ → List ℤ → Prop where
  | nil : PairSeq 0 []
  | openDelta {pending : Multiset ℤ} {rest : List ℤ} (d : ℤ) (hd : 0 ≤ d)
      (h : PairSeq (d ::ₘ pending) rest) : PairSeq pending (d :: rest)
  | closeDelta {pending : Multiset ℤ} {rest : List ℤ} (d : ℤ) (hmem : d ∈ pending)
      (h : PairSeq (pending.erase d) rest) : PairSeq pending (-d :: rest)

/-- Modelled from the spec: the `WANT_TRUE_BEST` scan of the Team Selector
(§4.2 step 3), whose loop is not in `src/`: scan every surviving candidate
(paired with its `getLoadBytes` value, which the caller computes) and retain
the best under the comparison rule — the current best `b` is replaced by a
candidate `c` exactly when `lessCompare(b, c)`, i.e. when `b` scores below
`c`; no early exit. -/
def selectTrueBest (req : GetTeamRequest) (teams : List (TeamRef × ℤ)) :
    Option (TeamRef × ℤ) :=
  teams.foldl
    (fun best cand =>
      match best with
      | none => some cand
      | some b => if req.lessCompare b.1 cand.1 b.2 cand.2 then some cand else some b)
    none

/-- Modelled from the spec: the single-fulfillment reply slot of §3/§9 (the
`Promise` in `GetTeamRequest::reply` lives in the flow runtime, not in
`src/`). `value` is the fulfilled payload, if any. -/
structure ReplySlot (α : Type) where
  value : Option α
deriving DecidableEq, Repr

/-- The fatal outcome of violating the at-most-once reply contract (§7(c)). -/
inductive FulfillError where
  | doubleFulfillment
deriving DecidableEq, Repr

/-- Modelled from the spec: fulfilling the reply slot. A first fulfillment
stores the payload; fulfilling an already-fulfilled slot is a fatal asserted
error, never a silent no-op (§7(c)). -/
def sendReply {α : Type} (s : ReplySlot α) (v : α) :
    Except FulfillError (ReplySlot α) :=
  match s.value with
  | none => Except.ok ⟨some v⟩
  | some _ => Except.error FulfillError.doubleFulfillment

/-! ## Characterization lemmas for the comparator -/

lemma TeamRef.getLoadReadBandwidth_true (t : TeamRef) :
    t.getLoadReadBandwidth true = t.loadReadBandwidthIncl := rfl

lemma TeamRef.getLoadReadBandwidth_false (t : TeamRef) :
    t.getLoadReadBandwidth false = t.loadReadBandwidthExcl := rfl

lemma lessCompareByLoad_true_iff (req : GetTeamRequest) (la lb : ℤ) :
    req.lessCompareByLoad la lb = true ↔
      (if req.preferLowerDiskUtil then lb < la else la ≤ lb) := by
  unfold GetTeamRequest.lessCompareByLoad
  cases req.preferLowerDiskUtil <;> simp

/-- The full truth table of `lessCompare`, used by every comparator theorem:
read-balance mode first orders on the branch-specific read-load sample and
falls through to `lessCompareByLoad` exactly on an exact tie. -/
lemma lessCompare_true_iff (req : GetTeamRequest) (a b : TeamRef) (la lb : ℤ) :
    req.lessCompare a b la lb = true ↔
      (if req.forReadBalance then
         (if req.preferLowerReadUtil then
            b.loadReadBandwidthIncl < a.loadReadBandwidthIncl ∨
              (a.loadReadBandwidthIncl = b.loadReadBandwidthIncl ∧
               req.lessCompareByLoad la lb = true)
          else
            a.loadReadBandwidthExcl < b.loadReadBandwidthExcl ∨
              (a.loadReadBandwidthExcl = b.loadReadBandwidthExcl ∧
               req.lessCompareByLoad la lb = true))
       else req.lessCompareByLoad la lb = true) := by
  unfold GetTeamRequest.lessCompare greaterReadLoad lessReadLoad
    TeamRef.getLoadReadBandwidth
  cases hfb : req.forReadBalance with
  | false => simp
  | true =>
    cases hpl : req.preferLowerReadUtil with
    | true =>
      simp only [if_pos rfl, ite_true]
      split_ifs with h1 h2 <;> simp_all
    | false =>
      simp only [ite_true, ite_false]
      split_ifs with h1 h2 <;> simp_all

/-! ## Lemmas about the clamped in-flight counters -/

lemma applyClamped_nil (c : ℤ) : applyClamped c [] = c := rfl

lemma applyClamped_cons (c d : ℤ) (rest : List ℤ) :
    applyClamped c (d :: rest) = applyClamped (max 0 (c + d)) rest := rfl

lemma applyClamped_nonneg (c : ℤ) (deltas : List ℤ) (hc : 0 ≤ c) :
    0 ≤ applyClamped c deltas := by
  induction deltas generalizing c with
  | nil => simpa [applyClamped_nil] using hc
  | cons d rest ih =>
    rw [applyClamped_cons]
    exact ih _ (le_max_left 0 _)

/-- A clamped counter run over a matched-pair interleaving ends at the sum of
the still-pending deltas — starting with no pending pairs, at zero. The
clamp never fires because every compensating `-d` follows its own `+d`. -/
lemma applyClamped_pairSeq {pending : Multiset ℤ} {deltas : List ℤ}
    (h : PairSeq pending deltas) (hnn : ∀ d ∈ pending, 0 ≤ d) :
    applyClamped pending.sum deltas = 0 := by
  induction h with
  | nil => simp [applyClamped_nil]
  | @openDelta pending rest d hd h ih =>
    rw [applyClamped_cons]
    have hsum : 0 ≤ pending.sum := Multiset.sum_nonneg hnn
    have hmax : max 0 (pending.sum + d) = (d ::ₘ pending).sum := by
      rw [Multiset.sum_cons]
      omega
    rw [hmax]
    exact ih fun e he => by
      rcases Multiset.mem_cons.mp he with he | he
      · exact he ▸ hd
      · exact hnn e he
  | @closeDelta pending rest d hmem h ih =>
    rw [applyClamped_cons]
    have hsplit : pending.sum = d + (pending.erase d).sum := by
      conv_lhs => rw [← Multiset.cons_erase hmem]
      exact Multiset.sum_cons d _
    have herasenn : ∀ e ∈ pending.erase d, 0 ≤ e := fun e he =>
      hnn e (Multiset.mem_of_mem_erase he)
    have hsum : 0 ≤ (pending.erase d).sum := Multiset.sum_nonneg herasenn
    have hmax : max 0 (pending.sum + -d) = (pending.erase d).sum := by omega
    rw [hmax]
    exact ih herasenn

lemma lessCompareByLoad_transPart (req : GetTeamRequest) (la lb lc : ℤ)
    (hab : req.lessCompareByLoad la lb = true)
    (hbc : req.lessCompareByLoad lb lc = true) :
    req.lessCompareByLoad la lc = true := by
  rw [lessCompareByLoad_true_iff] at hab hbc ⊢
  cases hpd : req.preferLowerDiskUtil <;> simp [hpd] at hab hbc ⊢ <;> omega

/-- Projection: the `dataInFlight` counter after a call sequence is the
clamped run over the sequence's `addDataInFlightToTeam` deltas. -/
lemma dataInFlight_applyTeamOps (t : Team) (ops : List TeamOp) :
    (applyTeamOps t ops).dataInFlight = applyClamped t.dataInFlight (dataDeltas ops) := by
  induction ops generalizing t with
  | nil => rfl
  | cons op rest ih =>
    cases op <;>
      simp only [applyTeamOps, List.foldl_cons, dataDeltas, List.filterMap_cons] <;>
      exact ih _

/-- Projection: the `readInFlight` counter after a call sequence is the
clamped run over the sequence's `addReadInFlightToTeam` deltas. -/
lemma readInFlight_applyTeamOps (t : Team) (ops : List TeamOp) :
    (applyTeamOps t ops).readInFlight = applyClamped t.readInFlight (readDeltas ops) := by
  induction ops generalizing t with
  | nil => rfl
  | cons op rest ih =>
    cases op <;>
      simp only [applyTeamOps, List.foldl_cons, readDeltas, List.filterMap_cons] <;>
      exact ih _

/-! ## Claims -/

/-- C1: For every fixed request criteria and all teams `a`, `b`: when
`forReadBalance` is set, `lessCompare(a, b)` compares by read load first
(lower read load scores higher when `preferLowerReadUtil` is set, higher read
load scores higher otherwise), and only when the two read loads are exactly
equal, or when `forReadBalance` is off, does it fall through to comparing
`loadBytes`, where lower load wins when `preferLowerDiskUtil` is set and
higher load wins otherwise. -/
theorem claim_C1 (req : GetTeamRequest) (a b : TeamRef) (la lb : ℤ) :
    (req.forReadBalance = true → req.preferLowerReadUtil = true →
       (a.loadReadBandwidthIncl ≠ b.loadReadBandwidthIncl →
          (req.lessCompare a b la lb = true ↔
             b.loadReadBandwidthIncl < a.loadReadBandwidthIncl)) ∧
       (a.loadReadBandwidthIncl = b.loadReadBandwidthIncl →
          req.lessCompare a b la lb = req.lessCompareByLoad la lb)) ∧
    (req.forReadBalance = true → req.preferLowerReadUtil = false →
       (a.loadReadBandwidthExcl ≠ b.loadReadBandwidthExcl →
          (req.lessCompare a b la lb = true ↔
             a.loadReadBandwidthExcl < b.loadReadBandwidthExcl)) ∧
       (a.loadReadBandwidthExcl = b.loadReadBandwidthExcl →
          req.lessCompare a b la lb = req.lessCompareByLoad la lb)) ∧
    (req.forReadBalance = false →
       req.lessCompare a b la lb = req.lessCompareByLoad la lb) ∧
    (req.preferLowerDiskUtil = true →
       (req.lessCompareByLoad la lb = true ↔ lb < la)) ∧
    (req.preferLowerDiskUtil = false →
       (req.lessCompareByLoad la lb = true ↔ la ≤ lb)) := by
  have h := lessCompare_true_iff req a b la lb
  have hL := lessCompareByLoad_true_iff req la lb
  refine ⟨?_, ?_, ?_, ?_, ?_⟩
  · intro hfb hpl
    simp only [hfb, hpl, ite_true] at h
    constructor
    · intro hne
      rw [h]
      constructor
      · rintro (hlt | ⟨heq, _⟩)
        · exact hlt
        · exact absurd heq hne
      · exact fun hlt => Or.inl hlt
    · intro heq
      rw [Bool.eq_iff_iff, h]
      constructor
      · rintro (hlt | ⟨_, hby⟩)
        · rw [heq] at hlt
          exact absurd hlt (lt_irrefl _)
        · exact hby
      · exact fun hby => Or.inr ⟨heq, hby⟩
  · intro hfb hpl
    simp only [hfb, hpl, ite_true, ite_false, Bool.false_eq_true] at h
    constructor
    · intro hne
      rw [h]
      constructor
      · rintro (hlt | ⟨heq, _⟩)
        · exact hlt
        · exact absurd heq hne
      · exact fun hlt => Or.inl hlt
    · intro heq
      rw [Bool.eq_iff_iff, h]
      constructor
      · rintro (hlt | ⟨_, hby⟩)
        · rw [heq] at hlt
          exact absurd hlt (lt_irrefl _)
        · exact hby
      · exact fun hby => Or.inr ⟨heq, hby⟩
  · intro hfb
    simp only [hfb, Bool.false_eq_true, ite_false] at h
    rw [Bool.eq_iff_iff, h]
  · intro hpd
    simpa only [hpd, ite_true] using hL
  · intro hpd
    simpa only [hpd, Bool.false_eq_true, ite_false] using hL

/-- Witness for C1: a concrete read-balance request with
`preferLowerReadUtil` set ranks the team with the higher in-flight-inclusive
read bandwidth as the lower scorer. -/
theorem claim_C1_witness :
    (GetTeamRequest.make .WANT_TRUE_BEST true false true true 1 none).lessCompare
      ⟨5, 0⟩ ⟨3, 0⟩ 0 0 = true := by
  have h := (claim_C1 (GetTeamRequest.make .WANT_TRUE_BEST true false true true 1 none)
      ⟨5, 0⟩ ⟨3, 0⟩ 0 0).1 rfl rfl
  exact (h.1 (by decide)).mpr (by decide)

/-- C2 counterexample: with `forReadBalance` off and `preferLowerDiskUtil`
off, `lessCompare` is not irreflexive — a team with `loadBytes = 5` compares
strictly below itself — and not asymmetric: two teams with equal read loads
and equal `loadBytes` each compare strictly below the other, so an exact tie
is not left unresolved. -/
theorem claim_C2_counterexample :
    (GetTeamRequest.make .WANT_TRUE_BEST false false false false 1 none).lessCompare
        ⟨0, 0⟩ ⟨0, 0⟩ 5 5 = true ∧
    (GetTeamRequest.make .WANT_TRUE_BEST false false false false 1 none).lessCompare
        ⟨1, 1⟩ ⟨2, 2⟩ 5 5 = true ∧
    (GetTeamRequest.make .WANT_TRUE_BEST false false false false 1 none).lessCompare
        ⟨2, 2⟩ ⟨1, 1⟩ 5 5 = true := by
  decide

/-- C2 as amended: for every fixed request criteria **with
`preferLowerDiskUtil` set**, `lessCompare` is irreflexive and asymmetric, and
two teams whose read loads and `loadBytes` are both equal form an unresolved
tie in which neither compares less than the other. (When
`preferLowerDiskUtil` is off, the `aLoadBytes <= bLoadBytes` fall-through
makes every exact tie compare less in both directions.) -/
theorem claim_C2_amended (req : GetTeamRequest) (a b : TeamRef) (la lb : ℤ)
    (hpd : req.preferLowerDiskUtil = true) :
    req.lessCompare a a la la = false ∧
    (req.lessCompare a b la lb = true → req.lessCompare b a lb la = false) ∧
    (a.loadReadBandwidthIncl = b.loadReadBandwidthIncl →
     a.loadReadBandwidthExcl = b.loadReadBandwidthExcl → la = lb →
       req.lessCompare a b la lb = false ∧ req.lessCompare b a lb la = false) := by
  have haa := lessCompare_true_iff req a a la la
  have hab := lessCompare_true_iff req a b la lb
  have hba := lessCompare_true_iff req b a lb la
  have hLaa := lessCompareByLoad_true_iff req la la
  have hLab := lessCompareByLoad_true_iff req la lb
  have hLba := lessCompareByLoad_true_iff req lb la
  simp only [hpd, ite_true] at hLaa hLab hLba
  refine ⟨?_, ?_, ?_⟩
  · rw [Bool.eq_false_iff, Ne, haa]
    cases hfb : req.forReadBalance <;>
      cases hpl : req.preferLowerReadUtil <;>
        simp [hLaa]
  · intro h1
    rw [hab] at h1
    rw [Bool.eq_false_iff, Ne, hba]
    cases hfb : req.forReadBalance with
    | false =>
      simp only [hfb, Bool.false_eq_true, ite_false] at h1 ⊢
      rw [hLab] at h1
      rw [hLba]
      omega
    | true =>
      cases hpl : req.preferLowerReadUtil with
      | true =>
        simp only [hfb, hpl, ite_true] at h1 ⊢
        rw [hLab] at h1
        rw [hLba]
        rcases h1 with h1 | ⟨h1e, h1l⟩ <;>
          rintro (hlt | ⟨heq, hlt⟩) <;> linarith
      | false =>
        simp only [hfb, hpl, ite_true, Bool.false_eq_true, ite_false] at h1 ⊢
        rw [hLab] at h1
        rw [hLba]
        rcases h1 with h1 | ⟨h1e, h1l⟩ <;>
          rintro (hlt | ⟨heq, hlt⟩) <;> linarith
  · intro hincl hexcl hload
    subst hload
    constructor <;> rw [Bool.eq_false_iff, Ne]
    · rw [hab]
      cases hfb : req.forReadBalance <;>
        cases hpl : req.preferLowerReadUtil <;>
          simp [hincl, hexcl, hLab]
    · rw [hba]
      cases hfb : req.forReadBalance <;>
        cases hpl : req.preferLowerReadUtil <;>
          simp [hincl, hexcl, hLba]

/-- Witness for the amended C2: with `preferLowerDiskUtil` set, a concrete
exact tie compares below itself in neither direction, and a concrete strict
comparison is not reversible. -/
theorem claim_C2_amended_witness :
    (GetTeamRequest.make .WANT_TRUE_BEST true false true true 1 none).lessCompare
        ⟨3, 4⟩ ⟨3, 4⟩ 7 7 = false ∧
    (GetTeamRequest.make .WANT_TRUE_BEST true false true true 1 none).lessCompare
        ⟨1, 1⟩ ⟨9, 9⟩ 0 5 = false := by
  have h1 := claim_C2_amended (GetTeamRequest.make .WANT_TRUE_BEST true false true true 1 none)
      ⟨3, 4⟩ ⟨3, 4⟩ 7 7 rfl
  have h2 := claim_C2_amended (GetTeamRequest.make .WANT_TRUE_BEST true false true true 1 none)
      ⟨9, 9⟩ ⟨1, 1⟩ 5 0 rfl
  exact ⟨h1.1, h2.2.1 (by decide)⟩

/-- C3: For every fixed request criteria and all teams `A`, `B`, `C` (with
their caller-computed `loadBytes` values): if `lessCompare(A, B)` and
`lessCompare(B, C)` then `lessCompare(A, C)`. -/
theorem claim_C3 (req : GetTeamRequest) (a b c : TeamRef) (la lb lc : ℤ)
    (hab : req.lessCompare a b la lb = true)
    (hbc : req.lessCompare b c lb lc = true) :
    req.lessCompare a c la lc = true := by
  rw [lessCompare_true_iff] at hab hbc ⊢
  cases hfb : req.forReadBalance with
  | false =>
    simp only [hfb, Bool.false_eq_true, ite_false] at hab hbc ⊢
    exact lessCompareByLoad_transPart req la lb lc hab hbc
  | true =>
    cases hpl : req.preferLowerReadUtil with
    | true =>
      simp only [hfb, hpl, ite_true] at hab hbc ⊢
      rcases hab with hab | ⟨habe, habl⟩ <;> rcases hbc with hbc | ⟨hbce, hbcl⟩
      · exact Or.inl (lt_trans hbc hab)
      · exact Or.inl (hbce ▸ hab)
      · exact Or.inl (habe ▸ hbc)
      · exact Or.inr ⟨habe.trans hbce, lessCompareByLoad_transPart req la lb lc habl hbcl⟩
    | false =>
      simp only [hfb, hpl, Bool.false_eq_true, ite_true, ite_false] at hab hbc ⊢
      rcases hab with hab | ⟨habe, habl⟩ <;> rcases hbc with hbc | ⟨hbce, hbcl⟩
      · exact Or.inl (lt_trans hab hbc)
      · exact Or.inl (hbce ▸ hab)
      · exact Or.inl (habe ▸ hbc)
      · exact Or.inr ⟨habe.trans hbce, lessCompareByLoad_transPart req la lb lc habl hbcl⟩

/-- Witness for C3: a concrete read-balance transitivity chain: the hottest
team compares above two colder teams through the middle one. -/
theorem claim_C3_witness :
    (GetTeamRequest.make .WANT_TRUE_BEST true false true false 1 none).lessCompare
        ⟨0, 10⟩ ⟨0, 40⟩ 3 1 = true := by
  exact claim_C3 (GetTeamRequest.make .WANT_TRUE_BEST true false true false 1 none)
    ⟨0, 10⟩ ⟨0, 25⟩ ⟨0, 40⟩ 3 2 1 (by decide) (by decide)

/-- The C4 scenario request: `WANT_TRUE_BEST`, `preferLowerDiskUtil = true`,
read balance off. -/
def reqC4 : GetTeamRequest :=
  GetTeamRequest.make .WANT_TRUE_BEST true false false false 1 none

/-- A team reference whose read-load observables are irrelevant to the C4
scenario (read balance is off). -/
def quietTeam : TeamRef := ⟨0, 0⟩

/-- The C4 candidate pool: teams with `loadBytes` 100, 50 and 75. -/
def candidatesC4 : List (TeamRef × ℤ) :=
  [(quietTeam, 100), (quietTeam, 50), (quietTeam, 75)]

/-- C4: With `preferLowerDiskUtil = true` and `forReadBalance` off, among
teams whose `loadBytes` are 100, 50 and 75 the team with `loadBytes` 50 is
the unique best element under the comparison rule (every other candidate
compares strictly below it and it compares below none of them), so a
`WANT_TRUE_BEST` scan over those teams returns the team with `loadBytes` 50. -/
theorem claim_C4 :
    selectTrueBest reqC4 candidatesC4 = some (quietTeam, 50) ∧
    (∀ p ∈ candidatesC4, p.2 ≠ 50 →
       reqC4.lessCompare p.1 quietTeam p.2 50 = true ∧
       reqC4.lessCompare quietTeam p.1 50 p.2 = false) := by
  decide

/-- The C5 scenario request: `WANT_TRUE_BEST`, `forReadBalance = true`,
`preferLowerReadUtil = false` (seek the hottest team). -/
def reqC5 : GetTeamRequest :=
  GetTeamRequest.make .WANT_TRUE_BEST true false true false 1 none

/-- The C5 candidate pool: teams with read bandwidths 10, 40 and 25 (each
team's two read-load observables agree) and equal `loadBytes`. -/
def candidatesC5 : List (TeamRef × ℤ) :=
  [(⟨10, 10⟩, 0), (⟨40, 40⟩, 0), (⟨25, 25⟩, 0)]

/-- C5: With `forReadBalance = true` and `preferLowerReadUtil = false`, among
teams whose read bandwidths are 10, 40 and 25 the team with read bandwidth 40
is the unique best element under the comparison rule (every colder candidate
compares strictly below it and it compares below none of them), so a
`WANT_TRUE_BEST` scan over those teams returns the team with read
bandwidth 40. -/
theorem claim_C5 :
    selectTrueBest reqC5 candidatesC5 = some (⟨40, 40⟩, 0) ∧
    (∀ p ∈ candidatesC5, p.1 ≠ ⟨40, 40⟩ →
       reqC5.lessCompare p.1 ⟨40, 40⟩ p.2 0 = true ∧
       reqC5.lessCompare ⟨40, 40⟩ p.1 0 p.2 = false) := by
  decide

/-- C10: For every server list, the `GetTeamRequest` constructor taking a
`std::vector<UID>` produces a request with `teamSelect = WANT_COMPLETE_SRCS`,
`findTeamByServers = true`, the supplied servers stored in `src`
(`completeSources` left empty), `preferLowerDiskUtil`, `teamMustHaveShards`,
`forReadBalance` and `preferLowerReadUtil` all false, and
`inflightPenalty = 1.0`. -/
theorem claim_C10 (servers : List UID) :
    (GetTeamRequest.fromServers servers).teamSelect = TeamSelect.WANT_COMPLETE_SRCS ∧
    (GetTeamRequest.fromServers servers).findTeamByServers = true ∧
    (GetTeamRequest.fromServers servers).src = servers ∧
    (GetTeamRequest.fromServers servers).completeSources = [] ∧
    (GetTeamRequest.fromServers servers).preferLowerDiskUtil = false ∧
    (GetTeamRequest.fromServers servers).teamMustHaveShards = false ∧
    (GetTeamRequest.fromServers servers).forReadBalance = false ∧
    (GetTeamRequest.fromServers servers).preferLowerReadUtil = false ∧
    (GetTeamRequest.fromServers servers).inflightPenalty = 1 := by
  exact ⟨rfl, rfl, rfl, rfl, rfl, rfl, rfl, rfl, rfl⟩

/-- C6: For every team and every sequence of `addDataInFlightToTeam` /
`addReadInFlightToTeam` calls, `dataInFlight` and `readInFlight` stay `≥ 0`
(decrements are clamped at zero rather than driving the counter negative);
and after any interleaving of matched `+delta`/`-delta` call pairs — whose
deltas sum to zero — both counters end at zero. The first conjunct quantifies
over every nonnegative starting state, so it bounds the counters at every
intermediate point of any call sequence as well. -/
theorem claim_C6 :
    (∀ (t : Team) (ops : List TeamOp),
       0 ≤ t.dataInFlight → 0 ≤ t.readInFlight →
       0 ≤ (applyTeamOps t ops).dataInFlight ∧
       0 ≤ (applyTeamOps t ops).readInFlight) ∧
    (∀ (t : Team) (ops : List TeamOp),
       t.dataInFlight = 0 → t.readInFlight = 0 →
       PairSeq 0 (dataDeltas ops) → PairSeq 0 (readDeltas ops) →
       (applyTeamOps t ops).dataInFlight = 0 ∧
       (applyTeamOps t ops).readInFlight = 0) := by
  constructor
  · intro t ops hd hr
    rw [dataInFlight_applyTeamOps, readInFlight_applyTeamOps]
    exact ⟨applyClamped_nonneg _ _ hd, applyClamped_nonneg _ _ hr⟩
  · intro t ops hd hr hpd hpr
    rw [dataInFlight_applyTeamOps, readInFlight_applyTeamOps, hd, hr]
    have hvac : ∀ d ∈ (0 : Multiset ℤ), (0 : ℤ) ≤ d := by
      intro d hmem
      exact absurd hmem (Multiset.not_mem_zero d)
    have h1 := applyClamped_pairSeq hpd hvac
    have h2 := applyClamped_pairSeq hpr hvac
    rw [Multiset.sum_zero] at h1 h2
    exact ⟨h1, h2⟩

/-- A single matched `+d` / `-d` pair is a valid interleaving. -/
lemma pairSeq_pair (d : ℤ) (hd : 0 ≤ d) : PairSeq 0 [d, -d] :=
  PairSeq.openDelta d hd
    (PairSeq.closeDelta d (Multiset.mem_cons_self d 0)
      (by rw [Multiset.erase_cons_head]; exact PairSeq.nil))

/-- A freshly created team: no members yet, healthy, all counters zero. -/
def zeroTeam : Team := ⟨[], true, 0, 0, 0, false, 0⟩

/-- A concrete interleaving of one data-flight pair and one read-flight pair. -/
def flightOpsW : List TeamOp :=
  [TeamOp.addDataInFlightToTeam 5, TeamOp.addReadInFlightToTeam 3,
   TeamOp.addDataInFlightToTeam (-5), TeamOp.addReadInFlightToTeam (-3)]

/-- Witness for C6: a concrete interleaving of a `+5`/`-5` data pair with a
`+3`/`-3` read pair keeps both counters nonnegative and ends at zero. -/
theorem claim_C6_witness :
    (0 ≤ (applyTeamOps zeroTeam flightOpsW).dataInFlight ∧
     0 ≤ (applyTeamOps zeroTeam flightOpsW).readInFlight) ∧
    ((applyTeamOps zeroTeam flightOpsW).dataInFlight = 0 ∧
     (applyTeamOps zeroTeam flightOpsW).readInFlight = 0) := by
  refine ⟨claim_C6.1 zeroTeam flightOpsW (by decide) (by decide),
          claim_C6.2 zeroTeam flightOpsW rfl rfl ?_ ?_⟩
  · exact pairSeq_pair 5 (by decide)
  · exact pairSeq_pair 3 (by decide)

/-- C7: a reply slot is fulfilled at most once: a successful `sendReply`
proves the slot was previously unfulfilled, stores exactly the supplied
payload, and any second fulfillment of the resulting slot is the fatal
`doubleFulfillment` error — never a silent success. -/
theorem claim_C7 {α : Type} (s s2 : ReplySlot α) (v w : α)
    (h : sendReply s v = Except.ok s2) :
    s.value = none ∧ s2.value = some v ∧
    sendReply s2 w = Except.error FulfillError.doubleFulfillment := by
  obtain ⟨sval⟩ := s
  cases sval with
  | none =>
    simp only [sendReply] at h
    injection h with h2
    subst h2
    exact ⟨rfl, rfl, rfl⟩
  | some u =>
    simp only [sendReply] at h
    exact absurd h (by simp)

/-- Witness for C7: fulfilling a fresh slot with `42` succeeds once; the
second fulfillment attempt is the fatal error. -/
theorem claim_C7_witness :
    (ReplySlot.mk (none : Option ℕ)).value = none ∧
    (ReplySlot.mk (some (42 : ℕ))).value = some 42 ∧
    sendReply (ReplySlot.mk (some (42 : ℕ))) 7 =
      Except.error FulfillError.doubleFulfillment :=
  claim_C7 ⟨none⟩ ⟨some 42⟩ 42 7 rfl

/-- C8: for every team and at every point in its lifetime — i.e. after any
sequence of the Team's mutating calls — `size()` equals the length of the
sequence returned by `getServerIDs()`. -/
theorem claim_C8 (t : Team) (ops : List TeamOp) :
    (applyTeamOps t ops).size = (applyTeamOps t ops).getServerIDs.length :=
  rfl

/-- C9: the two directions of the read-load comparison inside `lessCompare`
sample different quantities. With `preferLowerReadUtil` set the outcome
depends on the teams only through `getLoadReadBandwidth(true)` (the
in-flight-inclusive sample); with it clear, only through
`getLoadReadBandwidth(false)`; and for teams with non-zero `readInFlight`
the two samples genuinely differ. -/
theorem claim_C9 :
    (∀ (req : GetTeamRequest) (a a2 b b2 : TeamRef) (la lb : ℤ),
       req.forReadBalance = true → req.preferLowerReadUtil = true →
       a.loadReadBandwidthIncl = a2.loadReadBandwidthIncl →
       b.loadReadBandwidthIncl = b2.loadReadBandwidthIncl →
       req.lessCompare a b la lb = req.lessCompare a2 b2 la lb) ∧
    (∀ (req : GetTeamRequest) (a a2 b b2 : TeamRef) (la lb : ℤ),
       req.forReadBalance = true → req.preferLowerReadUtil = false →
       a.loadReadBandwidthExcl = a2.loadReadBandwidthExcl →
       b.loadReadBandwidthExcl = b2.loadReadBandwidthExcl →
       req.lessCompare a b la lb = req.lessCompare a2 b2 la lb) ∧
    (∃ t u : Team, t.readInFlight ≠ 0 ∧ u.readInFlight ≠ 0 ∧
       t.getLoadReadBandwidth true 1 ≠ t.getLoadReadBandwidth false 1 ∧
       u.getLoadReadBandwidth true 1 ≠ u.getLoadReadBandwidth false 1) := by
  refine ⟨?_, ?_, ?_⟩
  · intro req a a2 b b2 la lb hfb hpl ha hb
    rw [Bool.eq_iff_iff, lessCompare_true_iff, lessCompare_true_iff]
    simp only [hfb, hpl, ite_true, ha, hb]
  · intro req a a2 b b2 la lb hfb hpl ha hb
    rw [Bool.eq_iff_iff, lessCompare_true_iff, lessCompare_true_iff]
    simp only [hfb, hpl, Bool.false_eq_true, ite_true, ite_false, ha, hb]
  · refine ⟨⟨[], true, 0, 0, 7, false, 3⟩, ⟨[], true, 0, 0, -2, false, 5⟩,
      by decide, by decide, ?_, ?_⟩
    · norm_num [Team.getLoadReadBandwidth]
    · norm_num [Team.getLoadReadBandwidth]

/-- Witness for C9: with `preferLowerReadUtil` set, changing only the
in-flight-exclusive samples of both teams leaves the comparison unchanged. -/
theorem claim_C9_witness :
    (GetTeamRequest.make .WANT_TRUE_BEST true false true true 1 none).lessCompare
        ⟨5, 0⟩ ⟨3, 9⟩ 0 0 =
      (GetTeamRequest.make .WANT_TRUE_BEST true false true true 1 none).lessCompare
        ⟨5, 100⟩ ⟨3, -7⟩ 0 0 :=
  claim_C9.1 (GetTeamRequest.make .WANT_TRUE_BEST true false true true 1 none)
    ⟨5, 0⟩ ⟨5, 100⟩ ⟨3, 9⟩ ⟨3, -7⟩ 0 0 rfl rfl rfl rfl
